import Mathlib

/-!
Verification of the request-routing core of the `air` web framework
(`router.go`): a compressed trie with static / param / wildcard nodes,
priority-ordered backtracking lookup, and percent-decoding of captured
path parameters.

Paths, methods and parameter values are Go byte strings, embedded as
`List Nat` (one `Nat` per byte).  Handlers are opaque references,
embedded as `Nat` identities; a Go `nil` handler is `Option.none`.
Go panics (index out of range) are made explicit in the types of the
embedded operations.
-/

namespace Air

/-- Byte string of a Lean string literal, used to write concrete paths. -/
def str (s : String) : List Nat := s.data.map Char.toNat

/-- node kinds (`staticKind`, `paramKind`, `anyKind` in router.go). -/
inductive NodeKind where
  | staticKind
  | paramKind
  | anyKind
deriving DecidableEq, BEq, Repr

/-- `methodHandler`: a set of handlers distinguished by method.  A Go
`HandlerFunc` field is `Option Nat` (`none` = nil). -/
structure MethodHandler where
  get : Option Nat
  post : Option Nat
  put : Option Nat
  delete : Option Nat
deriving DecidableEq, Repr

def emptyMH : MethodHandler := ⟨none, none, none, none⟩

/-- `node`: a vertex of the router's tree.  The Go struct's `parent`
back-pointer is never read by `insert`/`route`/`checkMethodNotAllowed`,
so it is omitted.  `pre` embeds the Go field `prefix`. -/
inductive Node where
  | mk (kind : NodeKind) (label : Nat) (pre : List Nat) (mh : MethodHandler)
      (children : List Node) (pristinePath : List Nat) (paramNames : List (List Nat)) : Node
deriving Repr

def Node.kind : Node → NodeKind
  | .mk k _ _ _ _ _ _ => k

def Node.label : Node → Nat
  | .mk _ lb _ _ _ _ _ => lb

def Node.pre : Node → List Nat
  | .mk _ _ p _ _ _ _ => p

def Node.mh : Node → MethodHandler
  | .mk _ _ _ m _ _ _ => m

def Node.children : Node → List Node
  | .mk _ _ _ _ c _ _ => c

def Node.pristinePath : Node → List Nat
  | .mk _ _ _ _ _ pp _ => pp

def Node.paramNames : Node → List (List Nat)
  | .mk _ _ _ _ _ _ pn => pn

/-- The fresh root node made by `newRouter`:
`&node{methodHandler: &methodHandler{}}` (zero values elsewhere). -/
def emptyNode : Node := Node.mk .staticKind 0 [] emptyMH [] [] []

instance : Inhabited Node := ⟨emptyNode⟩

def GET : List Nat := str "GET"
def POST : List Nat := str "POST"
def PUT : List Nat := str "PUT"
def DELETE : List Nat := str "DELETE"

/-- Modelled from the spec: the package-level `methods` list lives in
`air.go`, which is not under `src/`; the spec fixes the closed method
set as GET, POST, PUT, DELETE. -/
def methods : List (List Nat) := [GET, POST, PUT, DELETE]

/-- `node.addHandler`: store h under the method's field (h may be nil). -/
def addHandlerMH (mh : MethodHandler) (method : List Nat) (h : Option Nat) : MethodHandler :=
  if method = GET then { mh with get := h }
  else if method = POST then { mh with post := h }
  else if method = PUT then { mh with put := h }
  else if method = DELETE then { mh with delete := h }
  else mh

/-- `node.handler`: fetch the handler for a method (default branch: nil). -/
def nodeHandler (n : Node) (method : List Nat) : Option Nat :=
  if method = GET then n.mh.get
  else if method = POST then n.mh.post
  else if method = PUT then n.mh.put
  else if method = DELETE then n.mh.delete
  else none

/-- `node.child`: first child with the given label and kind. -/
def child (n : Node) (lb : Nat) (t : NodeKind) : Option Node :=
  n.children.find? (fun c => c.label == lb && c.kind == t)

/-- `node.childByLabel`: first child with the given label. -/
def childByLabel (n : Node) (lb : Nat) : Option Node :=
  n.children.find? (fun c => c.label == lb)

/-- `node.childByKind`: first child with the given kind. -/
def childByKind (n : Node) (t : NodeKind) : Option Node :=
  n.children.find? (fun c => c.kind == t)

/-- Result handler reference of a lookup.  `user` is a registered
handler; `mnaH` / `nfH` are the framework's `MethodNotAllowedHandler` /
`NotFoundHandler` sentinels returned by `node.checkMethodNotAllowed`. -/
inductive RH where
  | user (id : Nat)
  | mnaH
  | nfH
deriving DecidableEq, Repr

/-- `node.checkMethodNotAllowed`: `MethodNotAllowedHandler` if any of the
recognized methods has a handler at n, else `NotFoundHandler`. -/
def checkMethodNotAllowed (n : Node) : RH :=
  if methods.any (fun m => (nodeHandler n m).isSome) then .mnaH else .nfH

/-! ### Percent-decoding (`unescape`, `ishex`, `unhex`) -/

/-- `ishex`: true if c is an ASCII hex digit. -/
def ishex (c : Nat) : Bool :=
  (48 ≤ c && c ≤ 57) || (97 ≤ c && c ≤ 102) || (65 ≤ c && c ≤ 70)

/-- `unhex`: hex digit value of c (0 in the default case). -/
def unhex (c : Nat) : Nat :=
  if 48 ≤ c && c ≤ 57 then c - 48
  else if 97 ≤ c && c ≤ 102 then c - 97 + 10
  else if 65 ≤ c && c ≤ 70 then c - 65 + 10
  else 0

/-- First pass of `unescape`: count the `%` escapes, checking that each
`%` (byte 37) is followed by two hex digits; `none` embeds the early
`return ""` on a malformed escape. -/
def escCount : List Nat → Option Nat
  | [] => some 0
  | c :: rest =>
    if c = 37 then
      match rest with
      | a :: b :: rest2 =>
        if ishex a && ishex b then (escCount rest2).map (· + 1) else none
      | _ => none
    else escCount rest

/-- Second pass of `unescape`: rebuild the string, decoding `%XX` to the
byte `unhex X <<4 | unhex X` (both nibbles are < 16, so the bitwise or
is addition) and `+` (43) to space (32).  Only ever applied to strings
the first pass accepted, so the short-`%` arm is unreachable. -/
def escDecode : List Nat → List Nat
  | [] => []
  | c :: rest =>
    if c = 37 then
      match rest with
      | a :: b :: rest2 => (unhex a * 16 + unhex b) :: escDecode rest2
      | _ => []
    else if c = 43 then 32 :: escDecode rest
    else c :: escDecode rest

/-- `unescape`: `""` on a malformed escape, the input itself when it has
no `%` at all, else the decoded string. -/
def unescape (s : List Nat) : List Nat :=
  match escCount s with
  | none => []
  | some 0 => s
  | some (_ + 1) => escDecode s

/-! ### Registration-time validation -/

/-- `strings.Count` for a single byte. -/
def countByte (b : Nat) : List Nat → Nat
  | [] => 0
  | c :: r => (if c = b then 1 else 0) + countByte b r

/-- `strings.Split(path, "/")` on bytes. -/
def splitSlash : List Nat → List (List Nat)
  | [] => [[]]
  | c :: r =>
    if c = 47 then [] :: splitSlash r
    else
      match splitSlash r with
      | s :: ss => (c :: s) :: ss
      | [] => [[c]]

/-- `path[strings.LastIndex(path, "/"):]`: the suffix starting at the
last `/` (inclusive); `[]` when there is no `/` (unreachable in
`checkPath`, whose earlier branches force a leading `/`). -/
def lastSlashSuffix : List Nat → List Nat
  | [] => []
  | c :: r =>
    let t := lastSlashSuffix r
    if t = [] then (if c = 47 then c :: r else []) else t

/-- `router.checkPath`: `some msg` embeds a panic with that message.
Note the Go code is a single if/else-if chain: when the path has more
than one `:` the entire `*` branch is skipped. -/
def checkPath (path : List Nat) : Option String :=
  if path = [] then some "path cannot be empty"
  else if path.headD 0 ≠ 47 then some "path must start with /"
  else if countByte 58 path > 1 then
    if (splitSlash path).any (fun p => countByte 58 p > 1) then
      some "adjacent params in a path must be separated by /"
    else none
  else if countByte 42 path ≠ 0 then
    if countByte 42 path > 1 then some "only one * is allowed in a path"
    else if path.getLast? ≠ some 42 then some "* can only appear at the end of a path"
    else if countByte 58 (lastSlashSuffix path) ≠ 0 then
      some "adjacent param and * in a path must be separated by /"
    else none
  else none

/-- Index loop of `pathWithoutParamNames`: on `:` (58) keep the `:` and
drop the name (up to the next `/`).  The fuel is the input length, which
bounds the number of iterations. -/
def pwpnLoop : Nat → List Nat → List Nat
  | 0, s => s
  | _ + 1, [] => []
  | fuel + 1, c :: r =>
    if c = 58 then c :: pwpnLoop fuel (r.dropWhile (fun b => b != 47))
    else c :: pwpnLoop fuel r

/-- `pathWithoutParamNames`: the path with the param names erased
(`/users/:id` becomes `/users/:`). -/
def pathWithoutParamNames (p : List Nat) : List Nat := pwpnLoop p.length p

/-- `route` registration record: method and path (the handler id is
irrelevant to `checkRoute` and omitted). -/
structure Route where
  method : List Nat
  path : List Nat
deriving DecidableEq, Repr

/-- `router.checkRoute`: panic (`some msg`) if some already-registered
route for the same method has the identical path or the same
name-erased path. -/
def checkRoute (rs : List Route) (method path : List Nat) : Option String :=
  match rs with
  | [] => none
  | r :: rest =>
    if r.method = method then
      if r.path = path then some "route is already registered"
      else if pathWithoutParamNames r.path = pathWithoutParamNames path then
        some "routes are ambiguous"
      else checkRoute rest method path
    else checkRoute rest method path

/-! ### Trie insertion (`router.insert`) -/

/-- Length of the longest common prefix of two byte strings. -/
def lcpLen : List Nat → List Nat → Nat
  | a :: as_, b :: bs => if a = b then lcpLen as_ bs + 1 else 0
  | _, _ => 0

/-- One `router.insert` call: iterative LCP descent, embedded with fuel
(one unit per loop iteration; `insert` supplies `search.length + 1`,
which suffices because every descent consumes a nonempty prefix). -/
def insertLoop (method : List Nat) (h : Option Nat) (t : NodeKind)
    (ppath : List Nat) (pnames : List (List Nat)) :
    Nat → List Nat → Node → Node
  | 0, _, cn => cn
  | fuel + 1, search, .mk k lb pre mh ch pp pn =>
    let sl := search.length
    let pl := pre.length
    let l := lcpLen search pre
    if l = 0 then
      -- At root node: adopt the whole search string
      if h.isSome then
        Node.mk t (search.headD 0) search (addHandlerMH mh method h) ch ppath pnames
      else
        Node.mk k (search.headD 0) search mh ch pp pn
    else if l < pl then
      -- Split node: the carved-off suffix inherits everything
      let n1 := Node.mk k ((pre.drop l).headD 0) (pre.drop l) mh ch pp pn
      if l = sl then
        -- At parent node
        Node.mk t (pre.headD 0) (pre.take l) (addHandlerMH emptyMH method h) [n1] ppath pnames
      else
        -- Create child node
        let n2 := Node.mk t ((search.drop l).headD 0) (search.drop l)
          (addHandlerMH emptyMH method h) [] ppath pnames
        Node.mk .staticKind (pre.headD 0) (pre.take l) emptyMH [n1, n2] [] []
    else if l < sl then
      let search' := search.drop l
      match ch.findIdx? (fun c => c.label == search'.headD 0) with
      | some i =>
        -- Go deeper
        Node.mk k lb pre mh
          (ch.set i (insertLoop method h t ppath pnames fuel search' (ch.getD i emptyNode))) pp pn
      | none =>
        -- Create child node
        let n := Node.mk t (search'.headD 0) search' (addHandlerMH emptyMH method h) [] ppath pnames
        Node.mk k lb pre mh (ch ++ [n]) pp pn
    else
      -- Node already exists
      if h.isSome then Node.mk k lb pre (addHandlerMH mh method h) ch ppath pnames
      else Node.mk k lb pre mh ch pp pn

/-- `router.insert`. -/
def insert (cn : Node) (method : List Nat) (path : List Nat) (h : Option Nat)
    (t : NodeKind) (ppath : List Nat) (pnames : List (List Nat)) : Node :=
  insertLoop method h t ppath pnames (path.length + 1) path cn

/-! ### Path-pattern compilation (`router.add`) -/

/-- Scanning loop of `router.add` over the pattern.  `done` is the
already-scanned prefix of the (rewritten) pattern and `rest` the
remainder, so `done ++ rest` is Go's current `path` and the scan index
is `done.length`.  `Except.error` embeds the duplicate-param-name
panic.  Fuel: one unit per scanned byte (`addRoute` supplies
`path.length + 1`, enough since `rest` shrinks at every step). -/
def addLoop (method : List Nat) (h : Nat) (ppath : List Nat) :
    Nat → List Nat → List Nat → List (List Nat) → Node → Except String Node
  | 0, _, _, _, tree => Except.ok tree
  | _ + 1, done, [], pnames, tree =>
    Except.ok (insert tree method done (some h) .staticKind ppath pnames)
  | fuel + 1, done, c :: rest, pnames, tree =>
    if c = 58 then
      let tree1 := insert tree method done none .staticKind [] []
      let pname := rest.takeWhile (fun b => b != 47)
      if pnames.contains pname then
        Except.error "a path cannot have duplicate param names"
      else
        let pnames' := pnames ++ [pname]
        let rest2 := rest.dropWhile (fun b => b != 47)
        let done' := done ++ [58]
        if rest2 = [] then
          Except.ok (insert tree1 method done' (some h) .paramKind ppath pnames')
        else
          addLoop method h ppath fuel done' rest2 pnames'
            (insert tree1 method done' none .paramKind ppath pnames')
    else if c = 42 then
      let tree1 := insert tree method done none .staticKind [] []
      let pnames' := pnames ++ [str "*"]
      Except.ok (insert tree1 method (done ++ [42]) (some h) .anyKind ppath pnames')
    else
      addLoop method h ppath fuel (done ++ [c]) rest pnames tree

/-- The tree-building part of `router.add` (after the checks). -/
def addRoute (tree : Node) (method path : List Nat) (h : Nat) : Except String Node :=
  addLoop method h path (path.length + 1) [] path [] tree

/-- The router: the tree plus the registry of registered routes. -/
structure Router where
  routes : List Route
  tree : Node

/-- `newRouter`. -/
def newRouter : Router := ⟨[], emptyNode⟩

/-- Modelled from the spec: the code that records each registered route
in `router.routes` lives in `air.go`, which is not under `src/`; the
spec says a registration record `{method, path}` is "retained for
duplicate/ambiguity detection" for every declared endpoint. -/
def recordRoute (rs : List Route) (method path : List Nat) : List Route :=
  rs ++ [⟨method, path⟩]

/-- `router.add` including its checks (`checkPath`, `checkRoute`); an
`Except.error` embeds a registration-time panic. -/
def add (r : Router) (method path : List Nat) (h : Nat) : Except String Router :=
  match checkPath path with
  | some msg => Except.error msg
  | none =>
    match checkRoute r.routes method path with
    | some msg => Except.error msg
    | none =>
      match addRoute r.tree method path h with
      | Except.error msg => Except.error msg
      | Except.ok t => Except.ok ⟨recordRoute r.routes method path, t⟩

/-- Register a whole route table, left to right. -/
def addAll (items : List (List Nat × List Nat × Nat)) : Except String Router :=
  items.foldlM (fun r item => add r item.1 item.2.1 item.2.2) newRouter

/-! ### Lookup (`router.route`)

The Go lookup is a single loop with two labels (`Param`, `Any`) used as
goto targets.  It is embedded as a small-step machine over the mutable
loop state; the three labelled blocks are the program counters, each
step consumes one unit of fuel.  Go index/nil-pointer panics are the
explicit outcome `panicked`. -/

/-- Program counter of the lookup loop: the loop head, and the `Param:`
and `Any:` labels. -/
inductive PC where
  | top
  | param
  | any
deriving DecidableEq, Repr

/-- The mutable state of the lookup loop: current node `cn` (nil-able,
since `cn = nn` may install nil), remaining `search`, the saved
next-kind / next-node / next-search triple, and the accumulated
`ctx.ParamValues`. -/
structure LoopSt where
  cn : Option Node
  search : List Nat
  nk : NodeKind
  nn : Option Node
  ns : List Nat
  pv : List (List Nat)

/-- How a run of the lookup loop ends: at the `End:` label with the
current node and param values, at a `// Not found` return, in a Go
panic, or out of fuel. -/
inductive LoopRes where
  | toEnd (cn : Node) (pv : List (List Nat))
  | nf (pv : List (List Nat))
  | panicked
  | fuelOut
deriving Repr

/-- Result of one labelled block: the loop halts (`End:` / Not found /
panic) or control transfers to another block with an updated state. -/
inductive StepRes where
  | halt (r : LoopRes)
  | next (pc : PC) (st : LoopSt)

/-- One labelled block of `router.route`'s loop (the loop head and the
`Param:` / `Any:` goto targets); a `continue` or `goto` is a `next`. -/
def routeStep : PC → LoopSt → StepRes
  | .top, st =>
    match st.cn with
    | none => .halt .panicked
    | some cn =>
      if st.search = [] then .halt (.toEnd cn st.pv)
      else
        -- LCP is skipped for param nodes (label ':'), leaving pl = l = 0
        let pl := if cn.label = 58 then 0 else cn.pre.length
        let l := if cn.label = 58 then 0 else lcpLen st.search cn.pre
        if l = pl then
          let search' := st.search.drop l
          if search' = [] then .halt (.toEnd cn st.pv)
          else
            -- Static node
            match child cn (search'.headD 0) .staticKind with
            | some c =>
              match cn.pre.getLast? with
              | none => .halt .panicked
              | some lastByte =>
                -- Save next
                if lastByte = 47 then
                  .next .top
                    { st with cn := some c, search := search',
                              nk := .paramKind, nn := some cn, ns := search' }
                else
                  .next .top { st with cn := some c, search := search' }
            | none => .next .param { st with cn := some cn, search := search' }
        else
          let st' := { st with cn := st.nn, search := st.ns }
          if st.nk = .paramKind then .next .param st'
          else if st.nk = .anyKind then .next .any st'
          else .halt (.nf st.pv)
  | .param, st =>
    match st.cn with
    | none => .halt .panicked
    | some cn =>
      match childByKind cn .paramKind with
      | some c =>
        match cn.pre.getLast? with
        | none => .halt .panicked
        | some lastByte =>
          let captured := st.search.takeWhile (fun b => b != 47)
          let search' := st.search.dropWhile (fun b => b != 47)
          let pv' := st.pv ++ [unescape captured]
          -- Save next
          if lastByte = 47 then
            .next .top
              { st with cn := some c, search := search', pv := pv',
                        nk := .anyKind, nn := some cn, ns := st.search }
          else
            .next .top { st with cn := some c, search := search', pv := pv' }
      | none => .next .any st
  | .any, st =>
    match st.cn with
    | none => .halt .panicked
    | some cn =>
      match childByKind cn .anyKind with
      | none =>
        match st.nn with
        | some nnNode =>
          let st' := { st with cn := some nnNode, nn := (none : Option Node), search := st.ns }
          if st.nk = .paramKind then .next .param st'
          else if st.nk = .anyKind then .next .any st'
          else .halt (.nf st.pv)
        | none => .halt (.nf st.pv)
      | some anyNode =>
        if st.pv.length = anyNode.paramNames.length then
          match st.pv with
          | [] => .halt .panicked
          | _ :: _ => .halt (.toEnd anyNode (st.pv.dropLast ++ [unescape st.search]))
        else .halt (.toEnd anyNode (st.pv ++ [unescape st.search]))

/-- The lookup loop: iterate `routeStep`, one unit of fuel per block. -/
def routeLoop : Nat → PC → LoopSt → LoopRes
  | 0, _, _ => .fuelOut
  | fuel + 1, pc, st =>
    match routeStep pc st with
    | .halt r => r
    | .next pc' st' => routeLoop fuel pc' st'

/-- Insert-or-replace into `ctx.Params` (a Go map keyed by name). -/
def mapUpdate (m : List (List Nat × List Nat)) (k v : List Nat) : List (List Nat × List Nat) :=
  if m.any (fun p => p.1 == k) then m.map (fun p => if p.1 == k then (k, v) else p)
  else m ++ [(k, v)]

/-- The final loop of `route`:
`for i, v := range ctx.ParamValues { ctx.Params[ctx.ParamNames[i]] = v }`;
`none` embeds the index-out-of-range panic when the values outnumber
the names. -/
def paramsFill (names pv : List (List Nat)) (m : List (List Nat × List Nat)) :
    Option (List (List Nat × List Nat)) :=
  match names, pv with
  | _, [] => some m
  | [], _ :: _ => none
  | n :: ns, v :: vs => paramsFill ns vs (mapUpdate m n v)

/-- Outcome of a whole `route` call: the request context's `Handler`
(`none` when route returned without ever assigning it), `PristinePath`,
`ParamNames`, `ParamValues` and `Params`, or a Go panic / fuel
exhaustion. -/
inductive RouteOut where
  | done (handler : Option RH) (pristinePath : List Nat)
      (paramNames : List (List Nat)) (paramValues : List (List Nat))
      (params : List (List Nat × List Nat))
  | panicked
  | fuelOut
deriving DecidableEq, Repr

/-- The `End:` block of `route`: fetch the handler, fall back to
`checkMethodNotAllowed`, dig into a trailing-wildcard child (possibly
binding an empty `*` value), and fill `ctx.Params`. -/
def routeEnd (method : List Nat) (cn : Node) (pv : List (List Nat)) : RouteOut :=
  match nodeHandler cn method with
  | some h =>
    match paramsFill cn.paramNames pv [] with
    | none => .panicked
    | some ps => .done (some (.user h)) cn.pristinePath cn.paramNames pv ps
  | none =>
    let h1 := checkMethodNotAllowed cn
    match childByKind cn .anyKind with
    | none =>
      -- return (the Params fill loop is skipped)
      .done (some h1) cn.pristinePath cn.paramNames pv []
    | some a =>
      let h2 := match nodeHandler a method with
        | some uh => RH.user uh
        | none => checkMethodNotAllowed a
      let pv' :=
        if pv.length = a.paramNames.length then
          match pv with
          | [] => none
          | _ :: _ => some (pv.dropLast ++ [([] : List Nat)])
        else some (pv ++ [([] : List Nat)])
      match pv' with
      | none => .panicked
      | some pv2 =>
        match paramsFill a.paramNames pv2 [] with
        | none => .panicked
        | some ps => .done (some h2) a.pristinePath a.paramNames pv2 ps

/-- `router.route` on a fresh request context. -/
def route (tree : Node) (method path : List Nat) (fuel : Nat) : RouteOut :=
  match routeLoop fuel .top ⟨some tree, path, .staticKind, none, [], []⟩ with
  | .fuelOut => .fuelOut
  | .panicked => .panicked
  | .nf pv => .done none [] [] pv []
  | .toEnd cn pv => routeEnd method cn pv

/-- Diagnostic projection: when the lookup loop reaches `End:`, the
number of accumulated param values and the length of the reached node's
`paramNames`. -/
def endInfo (tree : Node) (path : List Nat) (fuel : Nat) : Option (Nat × Nat) :=
  match routeLoop fuel .top ⟨some tree, path, .staticKind, none, [], []⟩ with
  | .toEnd cn pv => some (pv.length, cn.paramNames.length)
  | _ => none


/-! ### Termination infrastructure (claim C10)

A run of the lookup loop is shown to halt by a lexicographic measure
⟨A, B, E, D⟩ on the loop state:
  A — size of the saved backtrack node (of the current node when the
      slot is empty); never increases, and strictly decreases whenever
      a strictly deeper backtrack point is recorded;
  B — a rank ordering the life cycle of the backtrack slot
      (fresh > armed-param > stale-param > armed-any > stale-any);
  E — 1 while the search is strictly below the saved node, 0 right
      after a resume jump back to it;
  D — 3·(size of the current node) + a program-counter weight, for the
      plain descent steps.
The components are combined into one natural number with weight w
(any w above 3·A + 3 works; A never increases, so one choice of w
serves a whole run). -/

mutual

/-- Number of nodes of a tree. -/
def nsize : Node → Nat
  | .mk _ _ _ _ ch _ _ => 1 + nsizeL ch

/-- Number of nodes of a forest. -/
def nsizeL : List Node → Nat
  | [] => 0
  | c :: cs => nsize c + nsizeL cs

end

def sizeN : Option Node → Nat
  | some n => nsize n
  | none => 0

def measA (st : LoopSt) : Nat :=
  match st.nn with
  | some n => nsize n
  | none => sizeN st.cn

def measB (st : LoopSt) : Nat :=
  match st.nn, st.nk with
  | some _, .paramKind => 4
  | some _, .anyKind => 2
  | some _, .staticKind => 0
  | none, .staticKind => 5
  | none, .paramKind => 3
  | none, .anyKind => 1

def measE (st : LoopSt) : Nat :=
  match st.nn, st.cn with
  | some n, some c => if nsize c < nsize n then 1 else 0
  | _, _ => 0

def pcw : PC → Nat
  | .top => 2
  | .param => 1
  | .any => 0

def measD (pc : PC) (st : LoopSt) : Nat := 3 * sizeN st.cn + pcw pc

def measG (st : LoopSt) : Nat := (measA st * 6 + measB st) * 2 + measE st

def meas (w : Nat) (pc : PC) (st : LoopSt) : Nat := measG st * w + measD pc st

/-- Reachability invariant of the lookup loop.  `j1`: a saved node's
prefix ends in `/` (the save guard).  `j3`: at the loop head the
current node sits strictly below the saved one.  `j4`: at the `Param:`
label, being at the saved node itself only happens right after a
param-resume.  `j5`: at the loop head a non-static next-kind implies
the slot is armed (so the resume never dereferences nil).  `j6`: at the
`Param:` label with a just-consumed slot the current node is the old
saved node, whose prefix ends in `/`.  `j7`: at the labels the current
node is the saved node or strictly below it.  `j8`: an armed slot's
kind is param or any. -/
structure Inv (pc : PC) (st : LoopSt) : Prop where
  j1 : ∀ N, st.nn = some N → N.pre.getLast? = some 47
  j3 : pc = .top → ∀ N, st.nn = some N → ∃ C, st.cn = some C ∧ nsize C < nsize N
  j4 : pc = .param → ∀ N C, st.nn = some N → st.cn = some C → ¬ nsize C < nsize N →
        C = N ∧ st.nk = .paramKind
  j5 : pc = .top → st.nk ≠ .staticKind → st.nn ≠ none
  j6 : pc = .param → st.nn = none → st.nk = .paramKind →
        ∀ C, st.cn = some C → C.pre.getLast? = some 47
  j7 : pc = .param ∨ pc = .any → ∀ N, st.nn = some N →
        ∃ C, st.cn = some C ∧ nsize C ≤ nsize N
  j8 : st.nn ≠ none → st.nk ≠ .staticKind
  j9 : pc = .param → st.nn = none → st.nk ≠ .anyKind

/-! ### Specification-side decoder (for claim C6)

The following definitions are written from the claim's words, to be
compared with the embedded `unescape`: a string is well-formed when
every `%` is followed by two hex digits, and decoding maps each `%XX`
escape to the byte with hex value `XX`, each literal `+` to a space,
and leaves every other byte unchanged. -/

/-- Is every `%` (byte 37) in s followed by two hex digits? -/
def isWellFormed : List Nat → Bool
  | [] => true
  | c :: rest =>
    if c = 37 then
      match rest with
      | a :: b :: rest2 => ishex a && ishex b && isWellFormed rest2
      | _ => false
    else isWellFormed rest

/-- The claim's decoder on well-formed strings: `%XX` to the byte with
hex value `XX`, `+` to space, any other byte unchanged.  (The short-`%`
arm is arbitrary; it is only reached on non-well-formed input.) -/
def specDecode : List Nat → List Nat
  | [] => []
  | c :: rest =>
    if c = 37 then
      match rest with
      | a :: b :: rest2 => (unhex a * 16 + unhex b) :: specDecode rest2
      | [] => [c]
      | [x] => [c, x]
    else if c = 43 then 32 :: specDecode rest
    else c :: specDecode rest

/-- What `unescape` actually computes (the amended claim): `""` on any
malformed escape; the claimed decoding when the input contains at least
one `%`; the input returned unchanged (so `+` is NOT translated) when
it contains no `%` at all. -/
def specUnescape (s : List Nat) : List Nat :=
  if isWellFormed s then (if 37 ∈ s then specDecode s else s) else []

/-! ### Concrete route tables used by the claims -/

def c1RouterA : Option Router :=
  (addAll [(GET, str "/users/:id", 1), (GET, str "/users/new", 2)]).toOption

def c1RouterB : Option Router :=
  (addAll [(GET, str "/users/new", 2), (GET, str "/users/:id", 1)]).toOption

def c2RouterBoth : Option Router :=
  (addAll [(GET, str "/:x/:y/z", 1), (GET, str "/*", 2)]).toOption

def c2RouterStar : Option Router :=
  (addAll [(GET, str "/*", 2)]).toOption

def c2RouterTwo : Option Router :=
  (addAll [(GET, str "/:a/x", 1), (GET, str "/b/y", 2)]).toOption

def c3Router : Option Router :=
  (addAll [(GET, str "/users/:id", 1)]).toOption

def c4Router : Option Router :=
  (addAll [(GET, str "/static/*", 1)]).toOption

def c5Router : Option Router :=
  (addAll [(GET, str "/item", 1)]).toOption

def c9Router : Option Router :=
  (addAll [(GET, str "/:a/p:b/c", 1), (GET, str "/*", 2)]).toOption

theorem escCount_cons (c : Nat) (rest : List Nat) :
    escCount (c :: rest) =
      if c = 37 then
        match rest with
        | a :: b :: rest2 =>
          if ishex a && ishex b then (escCount rest2).map (· + 1) else none
        | _ => none
      else escCount rest := by
  rcases rest with _ | ⟨a, _ | ⟨b, r2⟩⟩ <;> rfl

theorem escDecode_cons (c : Nat) (rest : List Nat) :
    escDecode (c :: rest) =
      if c = 37 then
        match rest with
        | a :: b :: rest2 => (unhex a * 16 + unhex b) :: escDecode rest2
        | _ => []
      else if c = 43 then 32 :: escDecode rest
      else c :: escDecode rest := by
  rcases rest with _ | ⟨a, _ | ⟨b, r2⟩⟩ <;> rfl

theorem isWellFormed_cons (c : Nat) (rest : List Nat) :
    isWellFormed (c :: rest) =
      if c = 37 then
        match rest with
        | a :: b :: rest2 => ishex a && ishex b && isWellFormed rest2
        | _ => false
      else isWellFormed rest := by
  rcases rest with _ | ⟨a, _ | ⟨b, r2⟩⟩ <;> rfl

theorem specDecode_cons (c : Nat) (rest : List Nat) :
    specDecode (c :: rest) =
      if c = 37 then
        match rest with
        | a :: b :: rest2 => (unhex a * 16 + unhex b) :: specDecode rest2
        | [] => [c]
        | [x] => [c, x]
      else if c = 43 then 32 :: specDecode rest
      else c :: specDecode rest := by
  rcases rest with _ | ⟨a, _ | ⟨b, r2⟩⟩ <;> rfl

/-- Combined induction for the `unescape` analysis: on non-well-formed
input the first pass rejects; on well-formed input the second pass
computes the claimed decoding and the count is zero exactly when the
input has no `%`. -/
theorem unescape_main :
    ∀ (n : Nat) (s : List Nat), s.length ≤ n →
      (isWellFormed s = false → escCount s = none) ∧
      (isWellFormed s = true →
        escDecode s = specDecode s ∧
        ∃ m, escCount s = some m ∧ (m = 0 ↔ (37 : Nat) ∉ s)) := by
  intro n
  induction n with
  | zero =>
    intro s hs
    have hnil : s = [] := List.length_eq_zero.mp (Nat.le_zero.mp hs)
    subst hnil
    constructor
    · intro h; simp [isWellFormed] at h
    · intro _; exact ⟨rfl, 0, rfl, by simp⟩
  | succ n ihn =>
    intro s hs
    match s with
    | [] =>
      constructor
      · intro h; simp [isWellFormed] at h
      · intro _; exact ⟨rfl, 0, rfl, by simp⟩
    | c :: rest =>
      have hsr : rest.length ≤ n := by simpa using hs
      by_cases hc : c = 37
      · subst hc
        match rest with
        | [] =>
          constructor
          · intro _; rw [escCount_cons]; simp
          · intro hwf; rw [isWellFormed_cons] at hwf; simp at hwf
        | [x] =>
          constructor
          · intro _; rw [escCount_cons]; simp
          · intro hwf; rw [isWellFormed_cons] at hwf; simp at hwf
        | a :: b :: r2 =>
          have hr2 : r2.length ≤ n := by simp at hsr; omega
          obtain ⟨ihF, ihT⟩ := ihn r2 hr2
          by_cases hx : (ishex a && ishex b) = true
          · constructor
            · intro h
              rw [isWellFormed_cons] at h
              simp only [hx] at h
              simp only [Bool.true_and, if_true, reduceIte] at h
              rw [escCount_cons]
              simp [hx, ihF h]
            · intro hwf
              rw [isWellFormed_cons] at hwf
              simp only [hx] at hwf
              simp only [Bool.true_and, if_true, reduceIte] at hwf
              obtain ⟨hdec, m, hm, _hiff⟩ := ihT hwf
              refine ⟨?_, m + 1, ?_, ?_⟩
              · rw [escDecode_cons, specDecode_cons]
                simp [hdec]
              · rw [escCount_cons]
                simp [hx, hm]
              · simp [List.mem_cons]
          · constructor
            · intro _
              rw [escCount_cons]
              simp [hx]
            · intro hwf
              rw [isWellFormed_cons] at hwf
              simp [hx] at hwf
      · obtain ⟨ihF, ihT⟩ := ihn rest hsr
        have hmemiff : ((37 : Nat) ∉ c :: rest) ↔ ((37 : Nat) ∉ rest) := by
          constructor
          · intro h hm
            exact h (List.mem_cons_of_mem c hm)
          · intro h hm
            rcases List.mem_cons.mp hm with h1 | h1
            · exact hc h1.symm
            · exact h h1
        constructor
        · intro h
          rw [isWellFormed_cons, if_neg hc] at h
          rw [escCount_cons, if_neg hc]
          exact ihF h
        · intro hwf
          rw [isWellFormed_cons, if_neg hc] at hwf
          obtain ⟨hdec, m, hm, hiff⟩ := ihT hwf
          refine ⟨?_, m, ?_, ?_⟩
          · rw [escDecode_cons, if_neg hc, specDecode_cons, if_neg hc]
            by_cases h43 : c = 43
            · rw [if_pos h43, if_pos h43, hdec]
            · rw [if_neg h43, if_neg h43, hdec]
          · rw [escCount_cons, if_neg hc]
            exact hm
          · rw [hiff, hmemiff]

/-! ### Fuel monotonicity

The fuel threaded through `routeLoop` is an artifact of the embedding
(the Go loop has none); these lemmas show a terminated run is unchanged
by extra fuel, so the concrete fuel constants in the claim theorems are
immaterial. -/

theorem routeLoop_succ :
    ∀ (fuel : Nat) (pc : PC) (st : LoopSt),
      routeLoop fuel pc st = LoopRes.fuelOut ∨
        routeLoop (fuel + 1) pc st = routeLoop fuel pc st := by
  intro fuel
  induction fuel with
  | zero => intro pc st; exact Or.inl rfl
  | succ n ih =>
    intro pc st
    rw [routeLoop, routeLoop]
    cases routeStep pc st with
    | halt r => exact Or.inr rfl
    | next pc' st' => exact ih pc' st'

theorem routeLoop_add :
    ∀ (k fuel : Nat) (pc : PC) (st : LoopSt),
      routeLoop fuel pc st ≠ LoopRes.fuelOut →
      routeLoop (fuel + k) pc st = routeLoop fuel pc st := by
  intro k
  induction k with
  | zero => intro fuel pc st _; rfl
  | succ m ih =>
    intro fuel pc st h
    have h1 := ih fuel pc st h
    rcases routeLoop_succ (fuel + m) pc st with h2 | h2
    · rw [h1] at h2; exact absurd h2 h
    · calc routeLoop (fuel + (m + 1)) pc st = routeLoop (fuel + m + 1) pc st := rfl
        _ = routeLoop (fuel + m) pc st := h2
        _ = routeLoop fuel pc st := h1

theorem route_add (tree : Node) (method path : List Nat) (fuel k : Nat)
    (h : route tree method path fuel ≠ RouteOut.fuelOut) :
    route tree method path (fuel + k) = route tree method path fuel := by
  unfold route at h ⊢
  cases hl : routeLoop fuel .top ⟨some tree, path, .staticKind, none, [], []⟩ with
  | fuelOut => rw [hl] at h; exact absurd rfl h
  | panicked =>
    rw [routeLoop_add k fuel _ _ (by rw [hl]; exact fun hx => LoopRes.noConfusion hx), hl]
  | nf pv =>
    rw [routeLoop_add k fuel _ _ (by rw [hl]; exact fun hx => LoopRes.noConfusion hx), hl]
  | toEnd cn pv =>
    rw [routeLoop_add k fuel _ _ (by rw [hl]; exact fun hx => LoopRes.noConfusion hx), hl]

/-- Fuel stability of a lookup result on an optionally-built router. -/
theorem routeOption_add (ro : Option Router) (method path : List Nat) (fuel k : Nat)
    (x : RouteOut) (hx : x ≠ RouteOut.fuelOut)
    (h : (ro.map fun r => route r.tree method path fuel) = some x) :
    (ro.map fun r => route r.tree method path (fuel + k)) = some x := by
  cases ro with
  | none => exact Option.noConfusion h
  | some r =>
    simp only [Option.map_some'] at h ⊢
    have h' : route r.tree method path fuel = x := Option.some.inj h
    rw [route_add r.tree method path fuel k (by rw [h']; exact hx), h']

/-- Fuel stability of `endInfo` on an optionally-built router. -/
theorem endInfoOption_add (ro : Option Router) (path : List Nat) (fuel k : Nat)
    (q : Nat × Nat)
    (h : (ro.map fun r => endInfo r.tree path fuel) = some (some q)) :
    (ro.map fun r => endInfo r.tree path (fuel + k)) = some (some q) := by
  cases ro with
  | none => exact Option.noConfusion h
  | some r =>
    simp only [Option.map_some'] at h ⊢
    have h' : endInfo r.tree path fuel = some q := Option.some.inj h
    unfold endInfo at h' ⊢
    cases hl : routeLoop fuel .top ⟨some r.tree, path, .staticKind, none, [], []⟩ with
    | toEnd cn pv =>
      rw [routeLoop_add k fuel _ _ (by rw [hl]; exact fun hx => LoopRes.noConfusion hx), hl]
      rw [hl] at h'
      exact congrArg some h'
    | nf pv => rw [hl] at h'; exact Option.noConfusion h'
    | panicked => rw [hl] at h'; exact Option.noConfusion h'
    | fuelOut => rw [hl] at h'; exact Option.noConfusion h'


theorem nsize_pos : ∀ n : Node, 0 < nsize n := by
  intro n
  cases n with
  | mk k lb pre mh ch pp pn => rw [nsize]; omega

theorem nsize_le_of_mem : ∀ {cs : List Node} {c : Node}, c ∈ cs → nsize c ≤ nsizeL cs := by
  intro cs
  induction cs with
  | nil => intro c h; exact absurd h (List.not_mem_nil c)
  | cons a t ih =>
    intro c h
    rw [nsizeL]
    rcases List.mem_cons.mp h with h1 | h1
    · subst h1; omega
    · have := ih h1; omega

theorem nsize_lt_of_mem_children {c n : Node} (h : c ∈ n.children) :
    nsize c < nsize n := by
  cases n with
  | mk k lb pre mh ch pp pn =>
    simp only [Node.children] at h
    have h1 : nsize c ≤ nsizeL ch := nsize_le_of_mem h
    rw [nsize]
    omega

theorem mem_children_of_child {n c : Node} {lb : Nat} {t : NodeKind}
    (h : child n lb t = some c) : c ∈ n.children := by
  unfold child at h
  exact List.mem_of_find?_eq_some h

theorem mem_children_of_childByKind {n c : Node} {t : NodeKind}
    (h : childByKind n t = some c) : c ∈ n.children := by
  unfold childByKind at h
  exact List.mem_of_find?_eq_some h

theorem nsize_lt_of_child {n c : Node} {lb : Nat} {t : NodeKind}
    (h : child n lb t = some c) : nsize c < nsize n :=
  nsize_lt_of_mem_children (mem_children_of_child h)

theorem nsize_lt_of_childByKind {n c : Node} {t : NodeKind}
    (h : childByKind n t = some c) : nsize c < nsize n :=
  nsize_lt_of_mem_children (mem_children_of_childByKind h)

theorem measB_le : ∀ st : LoopSt, measB st ≤ 5 := by
  intro st
  unfold measB
  rcases st.nn with _ | n <;> rcases st.nk <;> simp

theorem measE_le : ∀ st : LoopSt, measE st ≤ 1 := by
  intro st
  unfold measE
  rcases st.nn with _ | n <;> rcases st.cn with _ | c <;> simp
  split <;> simp

theorem meas_lt_of_measG_lt {w : Nat} {pc pc' : PC} {st st' : LoopSt}
    (hG : measG st' < measG st) (hD : measD pc' st' < w) :
    meas w pc' st' < meas w pc st := by
  unfold meas
  calc measG st' * w + measD pc' st'
      < measG st' * w + w := by omega
    _ = (measG st' + 1) * w := by ring
    _ ≤ measG st * w := Nat.mul_le_mul_right w hG
    _ ≤ measG st * w + measD pc st := Nat.le_add_right _ _

theorem measG_lt_of_A_lt {st st' : LoopSt} (hA : measA st' < measA st) :
    measG st' < measG st := by
  have h1 := measB_le st'
  have h2 := measE_le st'
  unfold measG
  omega

theorem measG_lt_of_B_lt {st st' : LoopSt} (hA : measA st' = measA st)
    (hB : measB st' < measB st) : measG st' < measG st := by
  have h2 := measE_le st'
  unfold measG
  omega

theorem measG_lt_of_E_lt {st st' : LoopSt} (hA : measA st' = measA st)
    (hB : measB st' = measB st) (hE : measE st' < measE st) :
    measG st' < measG st := by
  unfold measG
  omega


/-- Step lemma for the `Any:` block: every `next` transition preserves
the invariant, does not increase A, and decreases the measure. -/
theorem step_next_any {st : LoopSt} {pc' : PC} {st' : LoopSt}
    (hinv : Inv .any st) (hstep : routeStep .any st = .next pc' st') :
    Inv pc' st' ∧ measA st' ≤ measA st ∧
      (measG st' < measG st ∨ (measG st' = measG st ∧ measD pc' st' < measD .any st)) := by
  obtain ⟨ocn, search, nk, nn, ns, pv⟩ := st
  cases ocn with
  | none => simp only [routeStep] at hstep; exact StepRes.noConfusion hstep
  | some cn =>
    simp only [routeStep] at hstep
    cases hany : childByKind cn .anyKind with
    | some anyNode =>
      rw [hany] at hstep
      simp only at hstep
      by_cases hlen : pv.length = anyNode.paramNames.length
      · rw [if_pos hlen] at hstep
        cases pv with
        | nil => exact StepRes.noConfusion hstep
        | cons v vs => exact StepRes.noConfusion hstep
      · rw [if_neg hlen] at hstep
        exact StepRes.noConfusion hstep
    | none =>
      rw [hany] at hstep
      simp only at hstep
      cases hnn : nn with
      | none => rw [hnn] at hstep; exact StepRes.noConfusion hstep
      | some N =>
        rw [hnn] at hstep
        simp only at hstep
        have hlast : N.pre.getLast? = some 47 := hinv.j1 N (by rw [hnn])
        by_cases hpk : nk = NodeKind.paramKind
        · rw [if_pos hpk] at hstep
          injection hstep with hpc hst
          subst hpc
          subst hst
          subst hpk
          refine ⟨⟨?_, ?_, ?_, ?_, ?_, ?_, ?_, ?_⟩, ?_, ?_⟩
          · intro M hM; exact Option.noConfusion hM
          · intro h; exact absurd h (fun hx => PC.noConfusion hx)
          · intro _ M C hM _ _; exact Option.noConfusion hM
          · intro h; exact absurd h (fun hx => PC.noConfusion hx)
          · intro _ _ _ C hC
            have : N = C := Option.some.inj hC
            subst this
            exact hlast
          · intro _ M hM; exact Option.noConfusion hM
          · intro hM; exact absurd rfl hM
          · intro _ _; exact fun hx => NodeKind.noConfusion hx
          · -- measA unchanged
            subst hnn
            simp [measA, sizeN]
          · -- measure: B decreases (armed param 4 → stale param 3), A equal
            left
            apply measG_lt_of_B_lt
            · subst hnn; simp [measA, sizeN]
            · subst hnn; simp [measB]
        · rw [if_neg hpk] at hstep
          by_cases hak : nk = NodeKind.anyKind
          · rw [if_pos hak] at hstep
            injection hstep with hpc hst
            subst hpc
            subst hst
            subst hak
            refine ⟨⟨?_, ?_, ?_, ?_, ?_, ?_, ?_, ?_⟩, ?_, ?_⟩
            · intro M hM; exact Option.noConfusion hM
            · intro h; exact absurd h (fun hx => PC.noConfusion hx)
            · intro h; exact absurd h (fun hx => PC.noConfusion hx)
            · intro h; exact absurd h (fun hx => PC.noConfusion hx)
            · intro h; exact absurd h (fun hx => PC.noConfusion hx)
            · intro _ M hM; exact Option.noConfusion hM
            · intro hM; exact absurd rfl hM
            · intro h; exact absurd h (fun hx => PC.noConfusion hx)
            · subst hnn
              simp [measA, sizeN]
            · left
              apply measG_lt_of_B_lt
              · subst hnn; simp [measA, sizeN]
              · subst hnn; simp [measB]
          · rw [if_neg hak] at hstep
            exact StepRes.noConfusion hstep


/-- Step lemma for the `Param:` block. -/
theorem step_next_param {st : LoopSt} {pc' : PC} {st' : LoopSt}
    (hinv : Inv .param st) (hstep : routeStep .param st = .next pc' st') :
    Inv pc' st' ∧ measA st' ≤ measA st ∧
      (measG st' < measG st ∨ (measG st' = measG st ∧ measD pc' st' < measD .param st)) := by
  obtain ⟨ocn, search, nk, nn, ns, pv⟩ := st
  cases ocn with
  | none => simp only [routeStep] at hstep; exact StepRes.noConfusion hstep
  | some cn =>
    simp only [routeStep] at hstep
    cases hpar : childByKind cn .paramKind with
    | none =>
      rw [hpar] at hstep
      simp only at hstep
      injection hstep with hpc hst
      subst hpc
      subst hst
      refine ⟨⟨?_, ?_, ?_, ?_, ?_, ?_, ?_, ?_⟩, ?_, ?_⟩
      · exact hinv.j1
      · intro h; exact (nomatch h)
      · intro h; exact (nomatch h)
      · intro h; exact (nomatch h)
      · intro h; exact (nomatch h)
      · intro _; exact hinv.j7 (Or.inl rfl)
      · exact hinv.j8
      · intro h; exact (nomatch h)
      · exact Nat.le_refl _
      · right
        exact ⟨rfl, by simp [measD, pcw]⟩
    | some c =>
      rw [hpar] at hstep
      simp only at hstep
      have hcsz : nsize c < nsize cn := nsize_lt_of_childByKind hpar
      cases hlastq : cn.pre.getLast? with
      | none => rw [hlastq] at hstep; exact StepRes.noConfusion hstep
      | some b =>
        rw [hlastq] at hstep
        simp only at hstep
        by_cases hb : b = 47
        · -- save and capture: goto the loop head at the param child
          rw [if_pos hb] at hstep
          injection hstep with hpc hst
          subst hpc
          subst hst
          refine ⟨⟨?_, ?_, ?_, ?_, ?_, ?_, ?_, ?_⟩, ?_, ?_⟩
          · intro M hM
            have : cn = M := Option.some.inj hM
            subst this
            rw [hlastq, hb]
          · intro _ M hM
            have : cn = M := Option.some.inj hM
            subst this
            exact ⟨c, rfl, hcsz⟩
          · intro h; exact (nomatch h)
          · intro _ _ h; exact Option.noConfusion h
          · intro h; exact (nomatch h)
          · intro h; rcases h with h | h <;> exact (nomatch h)
          · intro _; exact fun h => NodeKind.noConfusion h
          · intro h; exact (nomatch h)
          all_goals
            cases hnn : nn with
            | some N =>
              rw [hnn] at hinv
              obtain ⟨C, hC, hle⟩ := hinv.j7 (Or.inl rfl) N rfl
              have hCcn : C = cn := (Option.some.inj hC).symm
              subst hCcn
              by_cases hlt : nsize C < nsize N
              · first
                | exact Nat.le_of_lt (by simpa [measA] using hlt)
                | exact Or.inl (measG_lt_of_A_lt (by simpa [measA] using hlt))
              · obtain ⟨hCN, hnk⟩ := hinv.j4 rfl N C rfl rfl hlt
                subst hCN
                subst hnk
                first
                | exact Nat.le_of_eq (by simp [measA])
                | exact Or.inl (measG_lt_of_B_lt (by simp [measA]) (by simp [measB]))
            | none =>
              rw [hnn] at hinv
              have hnk9 : nk ≠ NodeKind.anyKind := hinv.j9 rfl rfl
              first
              | exact Nat.le_of_eq (by simp [measA, sizeN])
              | exact Or.inl (measG_lt_of_B_lt (by simp [measA, sizeN])
                  (by cases nk with
                      | staticKind => simp [measB]
                      | paramKind => simp [measB]
                      | anyKind => exact absurd rfl hnk9))
        · -- capture without a save (the prefix does not end in '/')
          rw [if_neg hb] at hstep
          injection hstep with hpc hst
          subst hpc
          subst hst
          cases hnn : nn with
          | some N =>
            rw [hnn] at hinv
            obtain ⟨C, hC, hle⟩ := hinv.j7 (Or.inl rfl) N rfl
            have hCcn : C = cn := (Option.some.inj hC).symm
            rw [hCcn] at hle
            have hlt : nsize cn < nsize N := by
              by_cases hlt0 : nsize cn < nsize N
              · exact hlt0
              · obtain ⟨hCN, _⟩ := hinv.j4 rfl N cn rfl rfl hlt0
                have h1 := hinv.j1 N rfl
                rw [← hCN, hlastq] at h1
                exact absurd (Option.some.inj h1) hb
            refine ⟨⟨?_, ?_, ?_, ?_, ?_, ?_, ?_, ?_⟩, ?_, ?_⟩
            · exact hinv.j1
            · intro _ M hM
              have : N = M := Option.some.inj hM
              subst this
              exact ⟨c, rfl, Nat.lt_trans hcsz hlt⟩
            · intro h; exact (nomatch h)
            · intro _ _ h; exact Option.noConfusion h
            · intro h; exact (nomatch h)
            · intro h; rcases h with h | h <;> exact (nomatch h)
            · exact hinv.j8
            · intro h; exact (nomatch h)
            · exact Nat.le_refl _
            · right
              refine ⟨?_, ?_⟩
              · have hE : measE ⟨some c, search.dropWhile (fun b => b != 47), nk, some N, ns,
                    pv ++ [unescape (search.takeWhile (fun b => b != 47))]⟩ = 1 := by
                  simp [measE, Nat.lt_trans hcsz hlt]
                have hE' : measE ⟨some cn, search, nk, some N, ns, pv⟩ = 1 := by
                  simp [measE, hlt]
                simp [measG, measA, measB, hE, hE']
              · simp only [measD, sizeN, pcw]
                omega
          | none =>
            rw [hnn] at hinv
            have hnk9 : nk ≠ NodeKind.anyKind := hinv.j9 rfl rfl
            have hnks : nk ≠ NodeKind.paramKind := by
              intro hp
              have := hinv.j6 rfl rfl hp cn rfl
              rw [hlastq] at this
              exact absurd (Option.some.inj this) hb
            refine ⟨⟨?_, ?_, ?_, ?_, ?_, ?_, ?_, ?_⟩, ?_, ?_⟩
            · intro M hM; exact Option.noConfusion hM
            · intro _ M hM; exact Option.noConfusion hM
            · intro h; exact (nomatch h)
            · intro _ hns
              cases nk with
              | staticKind => exact absurd rfl hns
              | paramKind => exact absurd rfl hnks
              | anyKind => exact absurd rfl hnk9
            · intro h; exact (nomatch h)
            · intro h; rcases h with h | h <;> exact (nomatch h)
            · intro h; exact absurd rfl h
            · intro h; exact (nomatch h)
            · exact Nat.le_of_lt (by simpa [measA, sizeN] using hcsz)
            · exact Or.inl (measG_lt_of_A_lt (by simpa [measA, sizeN] using hcsz))


/-- Step lemma for the loop head. -/
theorem step_next_top {st : LoopSt} {pc' : PC} {st' : LoopSt}
    (hinv : Inv .top st) (hstep : routeStep .top st = .next pc' st') :
    Inv pc' st' ∧ measA st' ≤ measA st ∧
      (measG st' < measG st ∨ (measG st' = measG st ∧ measD pc' st' < measD .top st)) := by
  obtain ⟨ocn, search, nk, nn, ns, pv⟩ := st
  cases ocn with
  | none => simp only [routeStep] at hstep; exact StepRes.noConfusion hstep
  | some cn =>
    simp only [routeStep] at hstep
    by_cases hse : search = []
    · rw [if_pos hse] at hstep; exact StepRes.noConfusion hstep
    · rw [if_neg hse] at hstep
      by_cases hlp : (if cn.label = 58 then 0 else lcpLen search cn.pre)
          = (if cn.label = 58 then 0 else cn.pre.length)
      · rw [if_pos hlp] at hstep
        by_cases hdrop : search.drop (if cn.label = 58 then 0 else lcpLen search cn.pre) = []
        · rw [if_pos hdrop] at hstep; exact StepRes.noConfusion hstep
        · rw [if_neg hdrop] at hstep
          cases hchild : child cn
              ((search.drop (if cn.label = 58 then 0 else lcpLen search cn.pre)).headD 0)
              NodeKind.staticKind with
          | some c =>
            rw [hchild] at hstep
            simp only at hstep
            have hcsz : nsize c < nsize cn := nsize_lt_of_child hchild
            cases hlastq : cn.pre.getLast? with
            | none => rw [hlastq] at hstep; exact StepRes.noConfusion hstep
            | some lb =>
              rw [hlastq] at hstep
              simp only at hstep
              by_cases hlb : lb = 47
              · -- save next, then descend into the static child
                rw [if_pos hlb] at hstep
                injection hstep with hpc hst
                subst hpc
                subst hst
                refine ⟨⟨?_, ?_, ?_, ?_, ?_, ?_, ?_, ?_⟩, ?_, ?_⟩
                · intro M hM
                  have h1 : cn = M := Option.some.inj hM
                  subst h1
                  rw [hlastq, hlb]
                · intro _ M hM
                  have h1 : cn = M := Option.some.inj hM
                  subst h1
                  exact ⟨c, rfl, hcsz⟩
                · intro h; exact (nomatch h)
                · intro _ _ h; exact Option.noConfusion h
                · intro h; exact (nomatch h)
                · intro h; rcases h with h | h <;> exact (nomatch h)
                · intro _; exact fun h => NodeKind.noConfusion h
                · intro h; exact (nomatch h)
                all_goals
                  cases hnn : nn with
                  | some N =>
                    try rw [hnn] at hinv
                    obtain ⟨C, hC, hlt⟩ := hinv.j3 rfl N rfl
                    have hCcn : C = cn := (Option.some.inj hC).symm
                    rw [hCcn] at hlt
                    first
                    | exact Nat.le_of_lt (by simpa [measA] using hlt)
                    | exact Or.inl (measG_lt_of_A_lt (by simpa [measA] using hlt))
                  | none =>
                    try rw [hnn] at hinv
                    have hnks : nk = NodeKind.staticKind := by
                      cases hk : nk with
                      | staticKind => rfl
                      | paramKind =>
                        exact absurd rfl (hinv.j5 rfl (by rw [hk]; exact fun q => NodeKind.noConfusion q))
                      | anyKind =>
                        exact absurd rfl (hinv.j5 rfl (by rw [hk]; exact fun q => NodeKind.noConfusion q))
                    first
                    | exact Nat.le_of_eq (by simp [measA, sizeN])
                    | exact Or.inl (measG_lt_of_B_lt (by simp [measA, sizeN])
                        (by rw [hnks]; simp [measB]))
              · -- descend into the static child without saving
                rw [if_neg hlb] at hstep
                injection hstep with hpc hst
                subst hpc
                subst hst
                cases hnn : nn with
                | some N =>
                  try rw [hnn] at hinv
                  obtain ⟨C, hC, hlt⟩ := hinv.j3 rfl N rfl
                  have hCcn : C = cn := (Option.some.inj hC).symm
                  rw [hCcn] at hlt
                  refine ⟨⟨?_, ?_, ?_, ?_, ?_, ?_, ?_, ?_⟩, ?_, ?_⟩
                  · exact hinv.j1
                  · intro _ M hM
                    have h1 : N = M := Option.some.inj hM
                    subst h1
                    exact ⟨c, rfl, Nat.lt_trans hcsz hlt⟩
                  · intro h; exact (nomatch h)
                  · intro _ _ h; exact Option.noConfusion h
                  · intro h; exact (nomatch h)
                  · intro h; rcases h with h | h <;> exact (nomatch h)
                  · exact hinv.j8
                  · intro h; exact (nomatch h)
                  · exact Nat.le_refl _
                  · right
                    refine ⟨?_, ?_⟩
                    · have hE1 : measE ⟨some c,
                          search.drop (if cn.label = 58 then 0 else lcpLen search cn.pre),
                          nk, some N, ns, pv⟩ = 1 := by
                        simp [measE, Nat.lt_trans hcsz hlt]
                      have hE2 : measE ⟨some cn, search, nk, some N, ns, pv⟩ = 1 := by
                        simp [measE, hlt]
                      simp [measG, measA, measB, hE1, hE2]
                    · simp only [measD, sizeN, pcw]
                      omega
                | none =>
                  try rw [hnn] at hinv
                  refine ⟨⟨?_, ?_, ?_, ?_, ?_, ?_, ?_, ?_⟩, ?_, ?_⟩
                  · intro M hM; exact Option.noConfusion hM
                  · intro _ M hM; exact Option.noConfusion hM
                  · intro h; exact (nomatch h)
                  · intro _ h; exact hinv.j5 rfl h
                  · intro h; exact (nomatch h)
                  · intro h; rcases h with h | h <;> exact (nomatch h)
                  · intro h; exact absurd rfl h
                  · intro h; exact (nomatch h)
                  · exact Nat.le_of_lt (by simpa [measA, sizeN] using hcsz)
                  · exact Or.inl (measG_lt_of_A_lt (by simpa [measA, sizeN] using hcsz))
          | none =>
            rw [hchild] at hstep
            simp only at hstep
            injection hstep with hpc hst
            subst hpc
            subst hst
            refine ⟨⟨?_, ?_, ?_, ?_, ?_, ?_, ?_, ?_⟩, ?_, ?_⟩
            · exact hinv.j1
            · intro h; exact (nomatch h)
            · intro _ M C hM hC hnlt
              obtain ⟨C0, hC0, hlt⟩ := hinv.j3 rfl M hM
              have h1 : C0 = cn := (Option.some.inj hC0).symm
              have h2 : cn = C := Option.some.inj hC
              rw [h1, h2] at hlt
              exact absurd hlt hnlt
            · intro h; exact (nomatch h)
            · intro _ h0 hkp
              exact absurd h0 (hinv.j5 rfl (by rw [hkp]; exact fun q => NodeKind.noConfusion q))
            · intro _ M hM
              obtain ⟨C0, hC0, hlt⟩ := hinv.j3 rfl M hM
              have h1 : C0 = cn := (Option.some.inj hC0).symm
              rw [h1] at hlt
              exact ⟨cn, rfl, Nat.le_of_lt hlt⟩
            · exact hinv.j8
            · intro _ h0 hka
              exact absurd h0 (hinv.j5 rfl (by rw [hka]; exact fun q => NodeKind.noConfusion q))
            · exact Nat.le_refl _
            · right
              refine ⟨rfl, ?_⟩
              simp only [measD, sizeN, pcw]
              omega
      · -- prefix mismatch: resume from the saved backtrack point
        rw [if_neg hlp] at hstep
        by_cases hnkp : nk = NodeKind.paramKind
        · rw [if_pos hnkp] at hstep
          injection hstep with hpc hst
          subst hpc
          subst hst
          have hnn : nn ≠ none := hinv.j5 rfl (by rw [hnkp]; exact fun q => NodeKind.noConfusion q)
          cases hnn2 : nn with
          | none => exact absurd hnn2 hnn
          | some N =>
            try rw [hnn2] at hinv
            obtain ⟨C, hC, hlt⟩ := hinv.j3 rfl N rfl
            have hCcn : C = cn := (Option.some.inj hC).symm
            rw [hCcn] at hlt
            refine ⟨⟨?_, ?_, ?_, ?_, ?_, ?_, ?_, ?_⟩, ?_, ?_⟩
            · exact hinv.j1
            · intro h; exact (nomatch h)
            · intro _ M C2 hM hC2 _
              have h1 : N = M := Option.some.inj hM
              have h2 : N = C2 := Option.some.inj hC2
              exact ⟨h2.symm.trans h1, hnkp⟩
            · intro h; exact (nomatch h)
            · intro _ h; exact Option.noConfusion h
            · intro _ M hM
              have h1 : N = M := Option.some.inj hM
              subst h1
              exact ⟨N, rfl, Nat.le_refl _⟩
            · exact hinv.j8
            · intro _ h; exact Option.noConfusion h
            · exact Nat.le_refl _
            · left
              apply measG_lt_of_E_lt
              · rfl
              · rw [hnkp]; simp [measB]
              · have hE1 : measE ⟨some N, ns, nk, some N, ns, pv⟩ = 0 := by
                  simp [measE]
                have hE2 : measE ⟨some cn, search, nk, some N, ns, pv⟩ = 1 := by
                  simp [measE, hlt]
                omega
        · rw [if_neg hnkp] at hstep
          by_cases hnka : nk = NodeKind.anyKind
          · rw [if_pos hnka] at hstep
            injection hstep with hpc hst
            subst hpc
            subst hst
            have hnn : nn ≠ none :=
              hinv.j5 rfl (by rw [hnka]; exact fun q => NodeKind.noConfusion q)
            cases hnn2 : nn with
            | none => exact absurd hnn2 hnn
            | some N =>
              try rw [hnn2] at hinv
              obtain ⟨C, hC, hlt⟩ := hinv.j3 rfl N rfl
              have hCcn : C = cn := (Option.some.inj hC).symm
              rw [hCcn] at hlt
              refine ⟨⟨?_, ?_, ?_, ?_, ?_, ?_, ?_, ?_⟩, ?_, ?_⟩
              · exact hinv.j1
              · intro h; exact (nomatch h)
              · intro h; exact (nomatch h)
              · intro h; exact (nomatch h)
              · intro h; exact (nomatch h)
              · intro _ M hM
                have h1 : N = M := Option.some.inj hM
                subst h1
                exact ⟨N, rfl, Nat.le_refl _⟩
              · exact hinv.j8
              · intro h; exact (nomatch h)
              · exact Nat.le_refl _
              · left
                apply measG_lt_of_E_lt
                · rfl
                · rw [hnka]; simp [measB]
                · have hE1 : measE ⟨some N, ns, nk, some N, ns, pv⟩ = 0 := by
                    simp [measE]
                  have hE2 : measE ⟨some cn, search, nk, some N, ns, pv⟩ = 1 := by
                    simp [measE, hlt]
                  omega
          · rw [if_neg hnka] at hstep
            exact StepRes.noConfusion hstep


/-- Under the invariant, the D component is bounded by the A component,
so a single weight serves a whole run. -/
theorem measD_le {pc : PC} {st : LoopSt} (hinv : Inv pc st) :
    measD pc st ≤ 3 * measA st + 2 := by
  have hpcw : pcw pc ≤ 2 := by cases pc <;> simp [pcw]
  have hcn : sizeN st.cn ≤ measA st := by
    cases hnn : st.nn with
    | none => simp [measA, hnn]
    | some N =>
      cases hcn : st.cn with
      | none => simp [measA, sizeN, hnn, hcn]
      | some C =>
        have hle : nsize C ≤ nsize N := by
          cases pc with
          | top =>
            obtain ⟨C0, hC0, hlt⟩ := hinv.j3 rfl N hnn
            rw [hcn] at hC0
            rw [Option.some.inj hC0]
            exact Nat.le_of_lt hlt
          | param =>
            obtain ⟨C0, hC0, h⟩ := hinv.j7 (Or.inl rfl) N hnn
            rw [hcn] at hC0
            rw [Option.some.inj hC0]
            exact h
          | any =>
            obtain ⟨C0, hC0, h⟩ := hinv.j7 (Or.inr rfl) N hnn
            rw [hcn] at hC0
            rw [Option.some.inj hC0]
            exact h
        simpa [measA, sizeN, hnn, hcn] using hle
  unfold measD
  omega

/-- A halted block never reports fuel exhaustion (only the loop driver
does). -/
theorem routeStep_ne_fuelOut (pc : PC) (st : LoopSt) :
    routeStep pc st ≠ StepRes.halt LoopRes.fuelOut := by
  obtain ⟨ocn, search, nk, nn, ns, pv⟩ := st
  cases pc <;> cases ocn <;> simp only [routeStep] <;> repeat' split
  all_goals simp

/-- The lookup loop halts from every state satisfying the invariant,
within fuel given by the measure. -/
theorem loop_halts (w : Nat) :
    ∀ (m : Nat) (pc : PC) (st : LoopSt), Inv pc st → 3 * measA st + 3 ≤ w →
      meas w pc st ≤ m → routeLoop (m + 1) pc st ≠ LoopRes.fuelOut := by
  intro m
  induction m using Nat.strong_induction_on with
  | _ m ih =>
    intro pc st hinv hw hm
    rw [routeLoop]
    cases hs : routeStep pc st with
    | halt r =>
      intro hr
      exact routeStep_ne_fuelOut pc st (hr ▸ hs)
    | next pc' st' =>
      have hstep : Inv pc' st' ∧ measA st' ≤ measA st ∧
          (measG st' < measG st ∨ (measG st' = measG st ∧ measD pc' st' < measD pc st)) := by
        cases pc with
        | top => exact step_next_top hinv hs
        | param => exact step_next_param hinv hs
        | any => exact step_next_any hinv hs
      obtain ⟨hinv', hA, hdec⟩ := hstep
      have hD' : measD pc' st' < w := by
        have := measD_le hinv'
        omega
      have hlt : meas w pc' st' < meas w pc st := by
        rcases hdec with h | ⟨hG, hD⟩
        · exact meas_lt_of_measG_lt h hD'
        · unfold meas
          rw [hG]
          omega
      show routeLoop m pc' st' ≠ LoopRes.fuelOut
      have heq : m = (m - 1) + 1 := by omega
      rw [heq]
      exact ih (m - 1) (by omega) pc' st' hinv' (by omega) (by omega)

/-- The `End:` block never reports fuel exhaustion. -/
theorem routeEnd_ne_fuelOut (method : List Nat) (cn : Node) (pv : List (List Nat)) :
    routeEnd method cn pv ≠ RouteOut.fuelOut := by
  unfold routeEnd
  repeat' split
  all_goals try simp
  all_goals (split <;> simp)

/-- Claim C10: for every tree (in particular every trie built by
successful `add` calls) and every method and request path, the lookup
loop of `route` terminates: some finite fuel makes the run halt, so the
goto-based backtracking never revisits configurations indefinitely. -/
theorem c10_route_terminates :
    ∀ (tree : Node) (method path : List Nat),
      ∃ fuel, route tree method path fuel ≠ RouteOut.fuelOut := by
  intro tree method path
  have hinv : Inv .top ⟨some tree, path, .staticKind, none, [], []⟩ := by
    refine ⟨?_, ?_, ?_, ?_, ?_, ?_, ?_, ?_⟩
    · intro M hM; exact Option.noConfusion hM
    · intro _ M hM; exact Option.noConfusion hM
    · intro h; exact (nomatch h)
    · intro _ h; exact absurd rfl h
    · intro h; exact (nomatch h)
    · intro h; rcases h with h | h <;> exact (nomatch h)
    · intro h; exact absurd rfl h
    · intro h; exact (nomatch h)
  set st0 : LoopSt := ⟨some tree, path, .staticKind, none, [], []⟩ with hst0
  refine ⟨meas (3 * measA st0 + 3) .top st0 + 1, ?_⟩
  have hne := loop_halts (3 * measA st0 + 3) (meas (3 * measA st0 + 3) .top st0) .top st0
    hinv (Nat.le_refl _) (Nat.le_refl _)
  unfold route
  cases hl : routeLoop (meas (3 * measA st0 + 3) .top st0 + 1) .top st0 with
  | fuelOut => exact absurd hl hne
  | panicked => exact fun h => RouteOut.noConfusion h
  | nf pv => exact fun h => RouteOut.noConfusion h
  | toEnd cn pv => exact routeEnd_ne_fuelOut method cn pv

/-! ### The claims -/

/-- Claim C1: with both the param route `GET /users/:id` and the static
route `GET /users/new` registered at the same branch point — in either
registration order — looking up `/users/new` selects the static route
(its handler 2, pristine path `/users/new`, empty param names), never
the param route; and the param route is still reachable for
`/users/42`. -/
theorem c1_static_beats_param : ∀ k : Nat,
    (c1RouterA.map fun r => route r.tree GET (str "/users/new") (64 + k))
      = some (RouteOut.done (some (RH.user 2)) (str "/users/new") [] [] []) ∧
    (c1RouterB.map fun r => route r.tree GET (str "/users/new") (64 + k))
      = some (RouteOut.done (some (RH.user 2)) (str "/users/new") [] [] []) ∧
    (c1RouterA.map fun r => route r.tree GET (str "/users/42") (64 + k))
      = some (RouteOut.done (some (RH.user 1)) (str "/users/:id")
          [str "id"] [str "42"] [(str "id", str "42")]) := by
  intro k
  refine ⟨?_, ?_, ?_⟩
  · exact routeOption_add c1RouterA GET (str "/users/new") 64 k _ (by decide) (by decide)
  · exact routeOption_add c1RouterB GET (str "/users/new") 64 k _ (by decide) (by decide)
  · exact routeOption_add c1RouterA GET (str "/users/42") 64 k _ (by decide) (by decide)

/-- Claim C2, counterexample: `route` keeps only a single saved
backtrack triple, so a backtrack point recorded earlier in the descent
is NOT always available when a later descent fails.  With
`GET /:x/:y/z` and `GET /*` registered, looking up `/a/b/q` records a
wildcard backtrack point at the root, later overwrites it with one at
the `/:x/` subtree, and ends in Not found (handler never assigned) —
although the earlier root wildcard point would have matched, as the
lookup on the table holding only `GET /*` shows. -/
theorem c2_counterexample :
    (c2RouterBoth.map fun r => route r.tree GET (str "/a/b/q") 64)
      = some (RouteOut.done none [] [] [str "a", str "b"] []) ∧
    (c2RouterStar.map fun r => route r.tree GET (str "/a/b/q") 64)
      = some (RouteOut.done (some (RH.user 2)) (str "/*") [str "*"]
          [str "a/b/q"] [(str "*", str "a/b/q")]) := by
  decide

/-- Claim C2 (amended): when no matching child exists, the search
resumes from the single most recently recorded backtrack point, trying
a pending param attempt before a pending wildcard attempt, and reports
Not found when no saved point remains; but only one backtrack triple is
kept, so recording a new point overwrites the previous one and earlier
points recorded during the descent can be lost.  First conjunct: the
most-recent param backtrack point is popped and succeeds (`/b/x`
matches `/:a/x` after the static `/b/y` attempt fails).  Second
conjunct: an earlier root wildcard point is lost by overwriting, so a
path the wildcard route matches ends in Not found. -/
theorem c2_amended_single_slot : ∀ k : Nat,
    (c2RouterTwo.map fun r => route r.tree GET (str "/b/x") (64 + k))
      = some (RouteOut.done (some (RH.user 1)) (str "/:a/x") [str "a"]
          [str "b"] [(str "a", str "b")]) ∧
    (c2RouterBoth.map fun r => route r.tree GET (str "/a/b/q") (64 + k))
      = some (RouteOut.done none [] [] [str "a", str "b"] []) := by
  intro k
  refine ⟨?_, ?_⟩
  · exact routeOption_add c2RouterTwo GET (str "/b/x") 64 k _ (by decide) (by decide)
  · exact routeOption_add c2RouterBoth GET (str "/a/b/q") 64 k _ (by decide) (by decide)

/-- Claim C3: after registering `GET /users/:id`, looking up
`GET /users/42` matches with param names `["id"]`, captured values
`["42"]`, `Params["id"] = "42"`, and the registered handler selected. -/
theorem c3_param_capture : ∀ k : Nat,
    (c3Router.map fun r => route r.tree GET (str "/users/42") (64 + k))
      = some (RouteOut.done (some (RH.user 1)) (str "/users/:id")
          [str "id"] [str "42"] [(str "id", str "42")]) := by
  intro k
  exact routeOption_add c3Router GET (str "/users/42") 64 k _ (by decide) (by decide)

/-- Claim C4: after registering `GET /static/*`, looking up
`GET /static/` matches binding the wildcard parameter `*` to `""`, and
looking up `GET /static/a/b.js` matches binding it to `"a/b.js"`. -/
theorem c4_wildcard_capture : ∀ k : Nat,
    (c4Router.map fun r => route r.tree GET (str "/static/") (64 + k))
      = some (RouteOut.done (some (RH.user 1)) (str "/static/*") [str "*"]
          [[]] [(str "*", [])]) ∧
    (c4Router.map fun r => route r.tree GET (str "/static/a/b.js") (64 + k))
      = some (RouteOut.done (some (RH.user 1)) (str "/static/*") [str "*"]
          [str "a/b.js"] [(str "*", str "a/b.js")]) := by
  intro k
  refine ⟨?_, ?_⟩
  · exact routeOption_add c4Router GET (str "/static/") 64 k _ (by decide) (by decide)
  · exact routeOption_add c4Router GET (str "/static/a/b.js") 64 k _ (by decide) (by decide)

/-- Claim C5: with only `GET /item` registered, looking up `POST /item`
fully matches the node but finds no POST handler while a GET handler
exists, so the `MethodNotAllowedHandler` sentinel is selected; looking
up `GET /nope` consumes no full trie path and ends Not found (handler
never assigned). -/
theorem c5_mna_vs_nf : ∀ k : Nat,
    (c5Router.map fun r => route r.tree POST (str "/item") (64 + k))
      = some (RouteOut.done (some RH.mnaH) (str "/item") [] [] []) ∧
    (c5Router.map fun r => route r.tree GET (str "/nope") (64 + k))
      = some (RouteOut.done none [] [] [] []) := by
  intro k
  refine ⟨?_, ?_⟩
  · exact routeOption_add c5Router POST (str "/item") 64 k _ (by decide) (by decide)
  · exact routeOption_add c5Router GET (str "/nope") 64 k _ (by decide) (by decide)

/-- Claim C6, counterexample: the claim says `unescape` maps each
literal `+` to a space on every input; but on the input `"+"` (one
literal `+`, no truncated escape) the code takes the `n == 0` fast path
and returns the input unchanged, not `" "`. -/
theorem c6_counterexample :
    unescape (str "+") = str "+" ∧ str "+" ≠ str " " := by
  decide

/-- Claim C6 (amended): for every input string, `unescape` returns `""`
whenever the input contains a truncated or non-hex `%` escape; when the
input is well-formed and contains at least one `%`, it maps each `%XX`
escape to the byte with hex value `XX`, each literal `+` to a space and
leaves every other byte unchanged; when the input contains no `%` at
all it is returned unchanged (so a literal `+` is then NOT translated).
Stated as: `unescape` coincides with `specUnescape`, the decoder
written from the amended claim's words. -/
theorem c6_amended_unescape_spec : ∀ s : List Nat, unescape s = specUnescape s := by
  intro s
  obtain ⟨hF, hT⟩ := unescape_main s.length s (Nat.le_refl _)
  unfold unescape specUnescape
  by_cases hw : isWellFormed s = true
  · obtain ⟨hdec, m, hm, hiff⟩ := hT hw
    by_cases hp : (37 : Nat) ∈ s
    · have hm0 : m ≠ 0 := fun h0 => (hiff.mp h0) hp
      match m, hm0 with
      | m' + 1, _ =>
        rw [hm]
        simp [hw, hp, hdec]
    · have hm0 : m = 0 := hiff.mpr hp
      subst hm0
      rw [hm]
      simp [hw, hp]
  · have hw' : isWellFormed s = false := by
      cases h : isWellFormed s
      · rfl
      · exact absurd h hw
    rw [hF hw']
    simp [hw']

/-- Helper for claim C7: if some already-registered route for the same
method has the identical path, or the same path after erasing parameter
names, then `checkRoute` panics. -/
theorem checkRoute_panics_of_mem :
    ∀ (rs : List Route) (m p : List Nat) (pr : Route),
      pr ∈ rs → pr.method = m →
      (pr.path = p ∨ pathWithoutParamNames pr.path = pathWithoutParamNames p) →
      checkRoute rs m p ≠ none := by
  intro rs m p pr hmem hm hcase
  induction rs with
  | nil => exact absurd hmem (List.not_mem_nil pr)
  | cons a t ih =>
    rw [checkRoute]
    rcases List.mem_cons.mp hmem with heq | hmem'
    · subst heq
      rw [if_pos hm]
      by_cases h2 : pr.path = p
      · rw [if_pos h2]; exact Option.noConfusion
      · rw [if_neg h2]
        rcases hcase with h3 | h3
        · exact absurd h3 h2
        · rw [if_pos h3]; exact Option.noConfusion
    · by_cases h1 : a.method = m
      · rw [if_pos h1]
        by_cases h2 : a.path = p
        · rw [if_pos h2]; exact Option.noConfusion
        · rw [if_neg h2]
          by_cases h3 : pathWithoutParamNames a.path = pathWithoutParamNames p
          · rw [if_pos h3]; exact Option.noConfusion
          · rw [if_neg h3]; exact ih hmem'
      · rw [if_neg h1]; exact ih hmem'

/-- Claim C7: registering a route whose method and literal path are
identical to a previously registered route, or whose method matches a
previously registered route and whose path after erasing parameter
names equals that route's erased path, makes `add` fail with an
immediate registration error (panic); it never silently succeeds. -/
theorem c7_duplicate_ambiguity_rejected :
    ∀ (r : Router) (m p : List Nat) (hid : Nat) (pr : Route),
      pr ∈ r.routes → pr.method = m →
      (pr.path = p ∨ pathWithoutParamNames pr.path = pathWithoutParamNames p) →
      ∃ msg, add r m p hid = Except.error msg := by
  intro r m p hid pr hmem hm hcase
  unfold add
  cases hcp : checkPath p with
  | some msg => exact ⟨msg, rfl⟩
  | none =>
    cases hcr : checkRoute r.routes m p with
    | none => exact absurd hcr (checkRoute_panics_of_mem r.routes m p pr hmem hm hcase)
    | some msg => exact ⟨msg, rfl⟩

/-- Claim C7, witness: registering `GET /users/:name` after
`GET /users/:id` (same erased path `/users/:`) fails. -/
theorem c7_witness :
    ∃ msg, add ⟨[⟨GET, str "/users/:id"⟩], emptyNode⟩ GET (str "/users/:name") 7
      = Except.error msg :=
  c7_duplicate_ambiguity_rejected ⟨[⟨GET, str "/users/:id"⟩], emptyNode⟩ GET
    (str "/users/:name") 7 ⟨GET, str "/users/:id"⟩ (List.mem_singleton.mpr rfl) rfl
    (Or.inr (by decide))

/-- Claim C8 fails on the code: `checkPath`'s wildcard checks sit in an
else-if branch that is skipped whenever the path contains two or more
`:` tokens.  `/:a/:b/x*y*` has two `*`s and `/:a/:b/*x` has a non-final
`*`, yet both pass `checkPath` with no panic and the first even
registers successfully; with at most one `:` the same violations do
panic. -/
theorem c8_wildcard_check_skipped :
    checkPath (str "/:a/:b/x*y*") = none ∧
    countByte 42 (str "/:a/:b/x*y*") = 2 ∧
    checkPath (str "/:a/:b/*x") = none ∧
    (str "/:a/:b/*x").getLast? ≠ some 42 ∧
    checkPath (str "/x*y*") = some "only one * is allowed in a path" ∧
    checkPath (str "/*x") = some "* can only appear at the end of a path" ∧
    (addAll [(GET, str "/:a/:b/x*y*", 1)]).toOption.isSome = true := by
  decide

/-- Claim C9 fails on the code: with `GET /:a/p:b/c` and `GET /*`
registered, looking up `GET /z/pq/d` captures two param values, loses
them during backtracking, matches the root wildcard and reaches the
final `Params` fill loop with 3 accumulated values but only 1 param
name — the loop reads `ctx.ParamNames[1]` out of range (a Go runtime
panic). -/
theorem c9_params_fill_out_of_range : ∀ k : Nat,
    (c9Router.map fun r => route r.tree GET (str "/z/pq/d") (64 + k))
      = some RouteOut.panicked ∧
    (c9Router.map fun r => endInfo r.tree (str "/z/pq/d") (64 + k))
      = some (some (3, 1)) := by
  intro k
  refine ⟨?_, ?_⟩
  · exact routeOption_add c9Router GET (str "/z/pq/d") 64 k _ (by decide) (by decide)
  · exact endInfoOption_add c9Router (str "/z/pq/d") 64 k _ (by decide)

end Air
